import Mathlib

/-!
Shallow embedding of the tournament progression engine implemented by the
Python class `TournamentManager` in `src/script/deepseek_python_20250507_6fe514.py`,
together with theorems settling the specification claims.

Modelling conventions:
* set-scores are `Option Int` (pandas `None`/`NaN` becomes `none`);
* team names and phase labels are `String`s with exactly the Python values;
* each pandas DataFrame of match rows is a `List` of structures, the list
  position playing the role of the frame's RangeIndex;
* the in-place row updates of the Python loops become explicit state passing
  (a fold over the row indices for the playoff-propagation loop, which in the
  source mutates rows that later iterations then observe).
-/

namespace Torneo

/-- Scoring constant `self.points_win = 3` (source line 19). -/
def points_win : Nat := 3

/-- Scoring constant `self.points_loss = 0` (source line 20). -/
def points_loss : Nat := 0

/-- Scoring constant `self.points_tiebreak = 1` (source line 21). -/
def points_tiebreak : Nat := 1

/-- One group-stage match row: columns `Squadra 1`, `Squadra 2`,
`Set Squadra 1`, `Set Squadra 2`, `Vincitore`. -/
structure GMatch where
  side1 : String
  side2 : String
  score1 : Option Int
  score2 : Option Int
  winner : String
deriving DecidableEq

/-- Round-robin schedule for one group (`generate_matches`, source lines 82-100):
the nested loops `for i in range(n): for j in range(i+1, n)` emit one match per
pair of distinct positions, scores unset and winner empty.  The recursion over
the team list produces exactly the same list of rows in the same order. -/
def generate_matches : List String → List GMatch
  | [] => []
  | t :: ts => (ts.map fun u => ⟨t, u, none, none, ""⟩) ++ generate_matches ts

/-- Winner recomputation for one group match (body of the loop in
`update_match_results`, source lines 114-129). -/
def computeWinner (m : GMatch) : GMatch :=
  match m.score1, m.score2 with
  | some s1, some s2 =>
    if s2 < s1 then { m with winner := m.side1 }
    else if s1 < s2 then { m with winner := m.side2 }
    else { m with winner := "Draw" }
  | _, _ => { m with winner := "" }

/-- `update_match_results` (source lines 102-129): the stored match set for the
group is replaced by the supplied rows with every winner field recomputed. -/
def update_match_results (ms : List GMatch) : List GMatch :=
  ms.map computeWinner

/-- One standings row (`calculate_group_standings`'s DataFrame row, source
lines 148-156). -/
structure Row where
  team : String
  matchesPlayed : Nat
  wins : Nat
  losses : Nat
  setsWon : Int
  setsLost : Int
  points : Nat
deriving DecidableEq

/-- Initial standings: one all-zero row per team of the group, in group order
(source lines 148-156). -/
def initStandings (teams : List String) : List Row :=
  teams.map fun t => ⟨t, 0, 0, 0, 0, 0, 0⟩

/-- Apply `f` to the first row whose team equals `name`; this is the pandas
lookup `standings[standings["Team"] == team].index[0]` followed by `.at`
updates on that row. -/
def updateRow (name : String) (f : Row → Row) : List Row → List Row
  | [] => []
  | r :: rs => if r.team = name then f r :: rs else r :: updateRow name f rs

/-- Per-row accrual of matches played and sets won/lost (source lines 169-179). -/
def accrueFor (sFor sAgainst : Int) (r : Row) : Row :=
  { r with matchesPlayed := r.matchesPlayed + 1,
           setsWon := r.setsWon + sFor, setsLost := r.setsLost + sAgainst }

/-- Per-row win credit: one win and `points_win` points (source lines 183-187). -/
def awardWin (r : Row) : Row :=
  { r with wins := r.wins + 1, points := r.points + points_win }

/-- Per-row loss credit with the tiebreak rule of source lines 189-193:
`points_tiebreak` when the loser's sets `ls` are one below the winner's sets
`ws` and `ws` is exactly 3, else `points_loss`. -/
def awardLoss (ws ls : Int) (r : Row) : Row :=
  { r with losses := r.losses + 1,
           points := r.points +
             (if ls = ws - 1 ∧ ws = 3 then points_tiebreak else points_loss) }

/-- Accrual for one match of the loop body of `calculate_group_standings`
(source lines 159-206): played/sets for both sides, then wins/losses/points. -/
def processMatch (st : List Row) (m : GMatch) : List Row :=
  match m.score1, m.score2 with
  | some s1, some s2 =>
    let stB := updateRow m.side2 (accrueFor s2 s1)
      (updateRow m.side1 (accrueFor s1 s2) st)
    if s2 < s1 then
      updateRow m.side2 (awardLoss s1 s2) (updateRow m.side1 awardWin stB)
    else if s1 < s2 then
      updateRow m.side1 (awardLoss s2 s1) (updateRow m.side2 awardWin stB)
    else stB
  | _, _ => st

/-- Sort-key comparison of `standings.sort_values(by=["Points", "Set Difference",
"Sets Won"], ascending=False)` (source lines 208-210): `a` may come before `b`. -/
def rankGe (a b : Row) : Prop :=
  b.points < a.points ∨ (a.points = b.points ∧
    (b.setsWon - b.setsLost < a.setsWon - a.setsLost ∨
      (a.setsWon - a.setsLost = b.setsWon - b.setsLost ∧ b.setsWon ≤ a.setsWon)))

instance (a b : Row) : Decidable (rankGe a b) := by
  unfold rankGe
  infer_instance

/-- Insert a row into a list kept sorted for `rankGe`. -/
def insertRow (r : Row) : List Row → List Row
  | [] => [r]
  | x :: xs => if rankGe x r then x :: insertRow r xs else r :: x :: xs

/-- Sort rows by descending points, then descending set difference, then
descending sets won (the three-key descending `sort_values` of line 210). -/
def sortRows : List Row → List Row
  | [] => []
  | x :: xs => insertRow x (sortRows xs)

/-- `calculate_group_standings` (source lines 131-215) for one group, given the
group's team list and its stored match rows. -/
def calculate_group_standings (teams : List String) (ms : List GMatch) : List Row :=
  sortRows (ms.foldl processMatch (initStandings teams))

/-- Points column of the first standings row for team `t` (0 when absent). -/
def getPoints (st : List Row) (t : String) : Nat :=
  match st.find? (fun r => r.team == t) with
  | some r => r.points
  | none => 0

/-- One playoff match row: columns `Fase`, `Squadra 1`, `Squadra 2`,
`Set Squadra 1`, `Set Squadra 2`, `Vincitore` (source line 15). -/
structure PMatch where
  fase : String
  side1 : String
  side2 : String
  score1 : Option Int
  score2 : Option Int
  winner : String
deriving DecidableEq

/-- Fresh playoff row with unset scores and empty winner. -/
def mkPM (fase s1 s2 : String) : PMatch := ⟨fase, s1, s2, none, none, ""⟩

/-- Placeholder string `f"QF{n} Winner"` (source line 403). -/
def phQF (n : Nat) : String := "QF" ++ toString n ++ " Winner"

/-- Placeholder string `f"SF{n} Winner"` (source line 414). -/
def phSFWin (n : Nat) : String := "SF" ++ toString n ++ " Winner"

/-- Placeholder string `f"SF{n} Loser"` (source line 422). -/
def phSFLose (n : Nat) : String := "SF" ++ toString n ++ " Loser"

/-- Flattened qualified-team list of `generate_playoffs` (source lines 240-246):
the top `adv` standings rows of each group, group by group. -/
def qualify (groups : List (List String × List GMatch)) (adv : Nat) : List String :=
  groups.flatMap fun g => ((calculate_group_standings g.1 g.2).map Row.team).take adv

/-- `generate_playoffs` (source lines 248-363) applied to the flattened
qualified-team list: the bracket shape is chosen from the list's length alone.
The `filterMap` guard mirrors the Python bounds check
`if team1_idx < len(qualified_teams) and team2_idx < len(qualified_teams)`. -/
def generate_playoffs (q : List String) : List PMatch :=
  if 8 ≤ q.length then
    ((List.range 4).filterMap fun i =>
      if i < q.length ∧ q.length - 1 - i < q.length then
        some (mkPM "Quarterfinals" (q.getD i "") (q.getD (q.length - 1 - i) ""))
      else none)
    ++ [mkPM "Semifinals" "QF1 Winner" "QF2 Winner",
        mkPM "Semifinals" "QF3 Winner" "QF4 Winner",
        mkPM "Finals" "SF1 Winner" "SF2 Winner",
        mkPM "Third Place" "SF1 Loser" "SF2 Loser"]
  else if 4 ≤ q.length then
    ((List.range 2).filterMap fun i =>
      if i < q.length ∧ q.length - 1 - i < q.length then
        some (mkPM "Semifinals" (q.getD i "") (q.getD (q.length - 1 - i) ""))
      else none)
    ++ [mkPM "Finals" "SF1 Winner" "SF2 Winner",
        mkPM "Third Place" "SF1 Loser" "SF2 Loser"]
  else if 2 ≤ q.length then
    [mkPM "Finals" (q.getD 0 "") (q.getD 1 "")]
  else []

/-- Substitution step of the propagation loops (source lines 402-407, 413-418,
420-426): on a row of phase `fase`, replace side 1 with `repl` if it equals the
placeholder `ph`, otherwise replace side 2 if that one equals `ph`. -/
def substSide (fase ph repl : String) (r : PMatch) : PMatch :=
  if r.fase = fase then
    if r.side1 = ph then { r with side1 := repl }
    else if r.side2 = ph then { r with side2 := repl }
    else r
  else r

/-- One propagation pass over all rows (the `for ... iterrows()` scans of the
filtered frame, whose `.at` writes go back to the full frame). -/
def propagate (ps : List PMatch) (fase ph repl : String) : List PMatch :=
  ps.map (substSide fase ph repl)

/-- Body of the main loop of `update_playoff_results` for row index `idx`
(source lines 375-426): skip when a score is missing (winner cleared);
otherwise write the winner (`""` on equal scores — the strict `>` comparisons
leave both `winner` and `loser` empty then) and run the phase's propagation,
which happens even when the scores were equal. -/
def stepPlayoff (ps : List PMatch) (idx : Nat) : List PMatch :=
  match ps[idx]? with
  | none => ps
  | some row =>
    match row.score1, row.score2 with
    | some s1, some s2 =>
      let winner := if s2 < s1 then row.side1 else if s1 < s2 then row.side2 else ""
      let loser := if s2 < s1 then row.side2 else if s1 < s2 then row.side1 else ""
      let ps1 := ps.set idx { row with winner := winner }
      if row.fase = "Quarterfinals" then
        propagate ps1 "Semifinals" (phQF (idx + 1)) winner
      else if row.fase = "Semifinals" then
        let n := if ps1.findIdx (fun r => r.fase == "Semifinals") = idx then 1 else 2
        propagate (propagate ps1 "Finals" (phSFWin n) winner) "Third Place" (phSFLose n) loser
      else ps1
    | _, _ => ps.set idx { row with winner := "" }

/-- `update_playoff_results` (source lines 365-426): the stored bracket is
replaced by the supplied rows and the loop body runs once per row index, each
iteration observing the writes of the previous ones. -/
def update_playoff_results (ps : List PMatch) : List PMatch :=
  (List.range ps.length).foldl stepPlayoff ps

/-- `check_playoffs_complete` (source lines 428-438): a bracket exists and
every row has both scores. -/
def check_playoffs_complete (ps : List PMatch) : Bool :=
  !ps.isEmpty && ps.all fun m => m.score1.isSome && m.score2.isSome

/-- The runner-up computation `side1 if winner == side2 else side2`
(source lines 451, 460, 470). -/
def runnerUpOf (m : PMatch) : String :=
  if m.winner = m.side2 then m.side1 else m.side2

/-- Appending one leftover group-stage team to the final standings (source
lines 478-486): the running pair is (next position, positions so far); a team
already placed is skipped, otherwise it receives the next position. -/
def appendRemaining (st : Nat × List (Nat × String)) (team : String) :
    Nat × List (Nat × String) :=
  if st.2.any (fun p => p.2 == team) then st
  else (st.1 + 1, st.2 ++ [(st.1, team)])

/-- `generate_final_standings` (source lines 440-488).  Returns `none` when the
function's guard makes it a no-op (bracket missing or incomplete) and also when
no `Finals` row exists (where the Python indexing `iloc[0]` would raise). -/
def generate_final_standings (ps : List PMatch)
    (groups : List (List String × List GMatch)) : Option (List (Nat × String)) :=
  if check_playoffs_complete ps = false then none else
  match ps.find? (fun m => m.fase == "Finals") with
  | none => none
  | some finals =>
    let base : List (Nat × String) :=
      [(1, finals.winner), (2, runnerUpOf finals)]
    let base :=
      match ps.find? (fun m => m.fase == "Third Place") with
      | none => base
      | some tp => base ++ [(3, tp.winner), (4, runnerUpOf tp)]
    let qfLosers := (ps.filter fun m => m.fase == "Quarterfinals").map runnerUpOf
    let base := base ++ qfLosers.enum.map fun p => (5 + p.1, p.2)
    let names := groups.flatMap fun g => (calculate_group_standings g.1 g.2).map Row.team
    some (names.foldl appendRemaining (base.length + 1, base)).2

/-- Teams that receive a bracket-derived position in
`generate_final_standings` (source lines 448-475), in position order: the
Final's winner and runner-up, then (when a Third-Place row exists) its winner
and runner-up, then the Quarterfinal losers in row order. -/
def assignedTeams (ps : List PMatch) : List String :=
  match ps.find? (fun m => m.fase == "Finals") with
  | none => []
  | some finals =>
    [finals.winner, runnerUpOf finals] ++
    (match ps.find? (fun m => m.fase == "Third Place") with
      | none => []
      | some tp => [tp.winner, runnerUpOf tp]) ++
    ((ps.filter fun m => m.fase == "Quarterfinals").map runnerUpOf)

/-- Concrete four-team bracket used in witnesses: two resolved Semifinals, a
drawn Final and a resolved Third-Place match, all scores present. -/
def psC9 : List PMatch :=
  [⟨"Semifinals", "A", "D", some 3, some 0, ""⟩,
   ⟨"Semifinals", "B", "C", some 3, some 1, ""⟩,
   ⟨"Finals", "SF1 Winner", "SF2 Winner", some 2, some 2, ""⟩,
   ⟨"Third Place", "SF1 Loser", "SF2 Loser", some 3, some 0, ""⟩]

/-- Concrete single-group data used in witnesses. -/
def groupsC9 : List (List String × List GMatch) := [(["A", "B", "C", "D"], [])]

/-- Concrete resolved one-match bracket used in witnesses. -/
def psC8 : List PMatch := [⟨"Finals", "A", "B", some 3, some 1, "A"⟩]

/-- Concrete two-team single group used in witnesses. -/
def groupsC8 : List (List String × List GMatch) := [(["A", "B"], [])]

end Torneo

namespace Torneo

/-! Theorems: group stage. -/

theorem mem_generate_matches_sides {teams : List String} {m : GMatch}
    (h : m ∈ generate_matches teams) : m.side1 ∈ teams ∧ m.side2 ∈ teams := by
  induction teams with
  | nil => simp [generate_matches] at h
  | cons t ts ih =>
    simp only [generate_matches, List.mem_append, List.mem_map] at h
    rcases h with ⟨u, hu, rfl⟩ | h
    · exact ⟨List.mem_cons_self t ts, List.mem_cons_of_mem t hu⟩
    · exact ⟨List.mem_cons_of_mem t (ih h).1, List.mem_cons_of_mem t (ih h).2⟩

theorem generate_matches_pairs_nodup {teams : List String} (hnd : teams.Nodup) :
    ((generate_matches teams).map (fun m => (m.side1, m.side2))).Nodup := by
  induction teams with
  | nil => simp [generate_matches]
  | cons t ts ih =>
    rw [List.nodup_cons] at hnd
    simp only [generate_matches, List.map_append, List.map_map]
    apply List.Nodup.append
    · exact hnd.2.map (fun u v huv => congrArg Prod.snd huv)
    · exact ih hnd.2
    · intro p hp hp'
      simp only [List.mem_map, Function.comp] at hp hp'
      obtain ⟨u, _, rfl⟩ := hp
      obtain ⟨m, hm, hmp⟩ := hp'
      have h1 : m.side1 ∈ ts := (mem_generate_matches_sides hm).1
      have h2 : m.side1 = t := by
        have := congrArg Prod.fst hmp
        simpa using this
      exact hnd.1 (h2 ▸ h1)

theorem generate_matches_pairs_complete (teams : List String) :
    ∀ i j, i < j → j < teams.length →
      (teams.getD i "", teams.getD j "") ∈
        (generate_matches teams).map (fun m => (m.side1, m.side2)) := by
  induction teams with
  | nil => intro i j _ hj; simp at hj
  | cons t ts ih =>
    intro i j hij hj
    simp only [generate_matches, List.map_append, List.mem_append]
    obtain ⟨k, rfl⟩ : ∃ k, j = k + 1 := ⟨j - 1, by omega⟩
    cases i with
    | zero =>
      left
      simp only [List.getD_cons_zero, List.getD_cons_succ, List.map_map,
        List.mem_map, Function.comp]
      have hk : k < ts.length := by simpa using hj
      refine ⟨ts.getD k "", ?_, rfl⟩
      rw [List.getD_eq_getElem ts "" hk]
      exact List.getElem_mem hk
    | succ i' =>
      right
      simp only [List.getD_cons_succ]
      exact ih i' k (by omega) (by simpa using hj)

theorem mem_generate_matches_pair {teams : List String} {m : GMatch}
    (h : m ∈ generate_matches teams) :
    ∃ i j, i < j ∧ j < teams.length ∧
      teams.getD i "" = m.side1 ∧ teams.getD j "" = m.side2 := by
  induction teams with
  | nil => simp [generate_matches] at h
  | cons t ts ih =>
    simp only [generate_matches, List.mem_append, List.mem_map] at h
    rcases h with ⟨u, hu, rfl⟩ | h
    · obtain ⟨k, hk, hget⟩ := List.mem_iff_getElem.1 hu
      refine ⟨0, k + 1, by omega, by simpa using hk, rfl, ?_⟩
      simp only [List.getD_cons_succ]
      rw [List.getD_eq_getElem ts "" hk]
      exact hget
    · obtain ⟨i, j, hij, hj, hi', hj'⟩ := ih h
      exact ⟨i + 1, j + 1, by omega, by simpa using hj,
        by simpa using hi', by simpa using hj'⟩

theorem mem_generate_matches_init {teams : List String} {m : GMatch}
    (h : m ∈ generate_matches teams) :
    m.score1 = none ∧ m.score2 = none ∧ m.winner = "" := by
  induction teams with
  | nil => simp [generate_matches] at h
  | cons t ts ih =>
    simp only [generate_matches, List.mem_append, List.mem_map] at h
    rcases h with ⟨u, _, rfl⟩ | h
    · exact ⟨rfl, rfl, rfl⟩
    · exact ih h

theorem generate_matches_length (teams : List String) :
    (generate_matches teams).length = teams.length * (teams.length - 1) / 2 := by
  induction teams with
  | nil => simp [generate_matches]
  | cons t ts ih =>
    simp only [generate_matches, List.length_append, List.length_map, ih,
      List.length_cons]
    rcases ts with _ | ⟨u, us⟩
    · simp
    · have hmul : (us.length + 1 + 1) * (us.length + 1) =
          (us.length + 1) * us.length + 2 * (us.length + 1) := by ring
      have h2 : ((us.length + 1) * us.length + 2 * (us.length + 1)) / 2 =
          (us.length + 1) * us.length / 2 + (us.length + 1) := by
        omega
      simp only [List.length_cons, Nat.add_sub_cancel, hmul, h2]
      omega

theorem find?_updateRow_of_ne (name t : String) (f : Row → Row)
    (hf : ∀ r, (f r).team = r.team) (hne : t ≠ name) :
    ∀ st : List Row, (updateRow name f st).find? (fun r => r.team == t) =
      st.find? (fun r => r.team == t)
  | [] => rfl
  | r :: rs => by
    by_cases h : r.team = name
    · have h1 : ((f r).team == t) = false := by
        rw [hf r, h]
        exact beq_false_of_ne fun he => hne he.symm
      have h2 : (r.team == t) = false := by
        rw [h]
        exact beq_false_of_ne fun he => hne he.symm
      simp only [updateRow, if_pos h, List.find?_cons, h1, h2]
    · by_cases ht : r.team = t
      · have hbt : (r.team == t) = true := by simpa using ht
        simp only [updateRow, if_neg h, List.find?_cons, hbt]
      · have h2 : (r.team == t) = false := beq_false_of_ne ht
        simp only [updateRow, if_neg h, List.find?_cons, h2]
        exact find?_updateRow_of_ne name t f hf hne rs

theorem find?_updateRow_self (name : String) (f : Row → Row)
    (hf : ∀ r, (f r).team = r.team) :
    ∀ st : List Row, (updateRow name f st).find? (fun r => r.team == name) =
      (st.find? (fun r => r.team == name)).map f
  | [] => rfl
  | r :: rs => by
    by_cases h : r.team = name
    · have h1 : ((f r).team == name) = true := by rw [hf r, h]; simp
      have h2 : (r.team == name) = true := by rw [h]; simp
      simp only [updateRow, if_pos h, List.find?_cons, h1, h2, Option.map_some']
    · have h2 : (r.team == name) = false := beq_false_of_ne h
      simp only [updateRow, if_neg h, List.find?_cons, h2]
      exact find?_updateRow_self name f hf rs

/-- C1: processing one completed decisive group match inside
`calculate_group_standings` (the loop body `processMatch`) adds exactly
`points_win = 3` to the winner's points, and adds `points_tiebreak = 1` to the
loser's points precisely when the loser's set count is one less than the
winner's and the winner's set count is exactly 3, and `points_loss = 0`
otherwise; the loser's increment is exactly one of the two, never their sum. -/
theorem calculate_points_decisive (st : List Row) (m : GMatch) (s1 s2 : Int)
    (h1 : m.score1 = some s1) (h2 : m.score2 = some s2) (hne : s1 ≠ s2)
    (hd : m.side1 ≠ m.side2)
    (hw : (st.find? (fun r => r.team == m.side1)).isSome)
    (hl : (st.find? (fun r => r.team == m.side2)).isSome) :
    getPoints (processMatch st m) (if s2 < s1 then m.side1 else m.side2) =
      getPoints st (if s2 < s1 then m.side1 else m.side2) + points_win ∧
    getPoints (processMatch st m) (if s2 < s1 then m.side2 else m.side1) =
      getPoints st (if s2 < s1 then m.side2 else m.side1) +
        (if min s1 s2 = max s1 s2 - 1 ∧ max s1 s2 = 3
         then points_tiebreak else points_loss) := by
  obtain ⟨rw1, hrw1⟩ := Option.isSome_iff_exists.1 hw
  obtain ⟨rw2, hrw2⟩ := Option.isSome_iff_exists.1 hl
  rcases lt_or_gt_of_ne hne with hlt | hlt
  · -- side2 wins
    have hif : ¬ s2 < s1 := by omega
    have hmin : min s1 s2 = s1 := min_eq_left hlt.le
    have hmax : max s1 s2 = s2 := max_eq_right hlt.le
    simp only [processMatch, h1, h2, if_neg hif, if_pos hlt, hmin, hmax]
    constructor
    · unfold getPoints
      rw [find?_updateRow_of_ne m.side1 m.side2 (awardLoss s2 s1) (fun r => rfl)
          (fun he => hd he.symm),
        find?_updateRow_self m.side2 awardWin (fun r => rfl),
        find?_updateRow_self m.side2 (accrueFor s2 s1) (fun r => rfl),
        find?_updateRow_of_ne m.side1 m.side2 (accrueFor s1 s2) (fun r => rfl)
          (fun he => hd he.symm),
        hrw2]
      rfl
    · unfold getPoints
      rw [find?_updateRow_self m.side1 (awardLoss s2 s1) (fun r => rfl),
        find?_updateRow_of_ne m.side2 m.side1 awardWin (fun r => rfl) hd,
        find?_updateRow_of_ne m.side2 m.side1 (accrueFor s2 s1) (fun r => rfl) hd,
        find?_updateRow_self m.side1 (accrueFor s1 s2) (fun r => rfl),
        hrw1]
      rfl
  · -- side1 wins
    have hif : s2 < s1 := hlt
    have hmin : min s1 s2 = s2 := min_eq_right hlt.le
    have hmax : max s1 s2 = s1 := max_eq_left hlt.le
    simp only [processMatch, h1, h2, if_pos hif, hmin, hmax]
    constructor
    · unfold getPoints
      rw [find?_updateRow_of_ne m.side2 m.side1 (awardLoss s1 s2) (fun r => rfl) hd,
        find?_updateRow_self m.side1 awardWin (fun r => rfl),
        find?_updateRow_of_ne m.side2 m.side1 (accrueFor s2 s1) (fun r => rfl) hd,
        find?_updateRow_self m.side1 (accrueFor s1 s2) (fun r => rfl),
        hrw1]
      rfl
    · unfold getPoints
      rw [find?_updateRow_self m.side2 (awardLoss s1 s2) (fun r => rfl),
        find?_updateRow_of_ne m.side1 m.side2 awardWin (fun r => rfl)
          (fun he => hd he.symm),
        find?_updateRow_self m.side2 (accrueFor s2 s1) (fun r => rfl),
        find?_updateRow_of_ne m.side1 m.side2 (accrueFor s1 s2) (fun r => rfl)
          (fun he => hd he.symm),
        hrw2]
      rfl

/-- Witness for C1 at a concrete 3-2 match: the winner gains 3 points and the
loser gains the tiebreak point. -/
theorem calculate_points_decisive_witness :
    getPoints (processMatch (initStandings ["A", "B"]) ⟨"A", "B", some 3, some 2, ""⟩) "A" = 3 ∧
    getPoints (processMatch (initStandings ["A", "B"]) ⟨"A", "B", some 3, some 2, ""⟩) "B" = 1 := by
  have h := calculate_points_decisive (initStandings ["A", "B"])
    ⟨"A", "B", some 3, some 2, ""⟩ 3 2 rfl rfl (by omega) (by decide)
    (by decide) (by decide)
  obtain ⟨hA, hB⟩ := h
  norm_num at hA hB
  constructor
  · rw [hA]
    decide
  · rw [hB]
    decide

/-- C5: for a group of `n` distinct teams, `generate_matches` creates exactly
`n*(n-1)/2` matches, one per unordered pair of distinct teams (team `i` vs
team `j` for all `i < j` in team-list order), each with both scores unset and
winner empty. -/
theorem generate_matches_round_robin (teams : List String) (hnd : teams.Nodup) :
    (generate_matches teams).length = teams.length * (teams.length - 1) / 2 ∧
    (∀ m ∈ generate_matches teams,
      m.score1 = none ∧ m.score2 = none ∧ m.winner = "" ∧
      ∃ i j, i < j ∧ j < teams.length ∧
        teams.getD i "" = m.side1 ∧ teams.getD j "" = m.side2) ∧
    ((generate_matches teams).map (fun m => (m.side1, m.side2))).Nodup ∧
    (∀ i j, i < j → j < teams.length →
      (teams.getD i "", teams.getD j "") ∈
        (generate_matches teams).map (fun m => (m.side1, m.side2))) := by
  refine ⟨generate_matches_length teams, fun m hm => ?_,
    generate_matches_pairs_nodup hnd, generate_matches_pairs_complete teams⟩
  obtain ⟨hs1, hs2, hwin⟩ := mem_generate_matches_init hm
  exact ⟨hs1, hs2, hwin, mem_generate_matches_pair hm⟩

/-- Witness for C5 on the concrete group `["A", "B", "C"]`. -/
theorem generate_matches_round_robin_witness :
    (["A", "B", "C"] : List String).Nodup ∧
    (generate_matches ["A", "B", "C"]).length = 3 ∧
    ("A", "B") ∈ (generate_matches ["A", "B", "C"]).map (fun m => (m.side1, m.side2)) := by
  have h := generate_matches_round_robin ["A", "B", "C"] (by decide)
  refine ⟨by decide, ?_, ?_⟩
  · simpa using h.1
  · simpa using h.2.2.2 0 1 (by omega) (by simp)

/-- C3: after `update_match_results`, every stored match's winner field is
side 1's name when both scores are present with `score1 > score2`, side 2's
name when `score2 > score1`, the literal `"Draw"` when both are present and
equal, and the empty string when either score is absent. -/
theorem update_match_results_winner_spec (ms : List GMatch) (m' : GMatch)
    (hm : m' ∈ update_match_results ms) :
    ((m'.score1 = none ∨ m'.score2 = none) → m'.winner = "") ∧
    (∀ s1 s2 : Int, m'.score1 = some s1 → m'.score2 = some s2 →
      (s2 < s1 → m'.winner = m'.side1) ∧
      (s1 < s2 → m'.winner = m'.side2) ∧
      (s1 = s2 → m'.winner = "Draw")) := by
  obtain ⟨m, _, rfl⟩ := List.mem_map.1 hm
  rcases hm1 : m.score1 with _ | s1 <;> rcases hm2 : m.score2 with _ | s2
  · simp [computeWinner, hm1, hm2]
  · simp [computeWinner, hm1, hm2]
  · simp [computeWinner, hm1, hm2]
  · simp only [computeWinner, hm1, hm2]
    by_cases hba : s2 < s1
    · simp only [if_pos hba]
      refine ⟨by simp [hm1], fun t1 t2 ht1 ht2 => ?_⟩
      simp only [hm1, hm2, Option.some_inj] at ht1 ht2
      subst ht1
      subst ht2
      exact ⟨fun _ => by trivial, fun hc => absurd hc (by omega), fun hc => absurd hc (by omega)⟩
    · by_cases hab : s1 < s2
      · simp only [if_neg hba, if_pos hab]
        refine ⟨by simp [hm1], fun t1 t2 ht1 ht2 => ?_⟩
        simp only [hm1, hm2, Option.some_inj] at ht1 ht2
        subst ht1
        subst ht2
        exact ⟨fun hc => absurd hc (by omega), fun _ => by trivial, fun hc => absurd hc (by omega)⟩
      · simp only [if_neg hba, if_neg hab]
        refine ⟨by simp [hm1], fun t1 t2 ht1 ht2 => ?_⟩
        simp only [hm1, hm2, Option.some_inj] at ht1 ht2
        subst ht1
        subst ht2
        exact ⟨fun hc => absurd hc (by omega), fun hc => absurd hc (by omega), fun _ => by trivial⟩

/-- Witness for C3 on a concrete one-match list with a decisive result. -/
theorem update_match_results_winner_spec_witness :
    (⟨"A", "B", some 3, some 1, "A"⟩ : GMatch) ∈
      update_match_results [⟨"A", "B", some 3, some 1, ""⟩] ∧
    (⟨"A", "B", some 3, some 1, "A"⟩ : GMatch).winner = "A" := by
  have h := update_match_results_winner_spec [⟨"A", "B", some 3, some 1, ""⟩]
    ⟨"A", "B", some 3, some 1, "A"⟩ (by decide)
  exact ⟨by decide, (h.2 3 1 rfl rfl).1 (by omega)⟩

theorem rankGe_total (a b : Row) : rankGe a b ∨ rankGe b a := by
  unfold rankGe
  omega

theorem rankGe_trans (a b c : Row) (h1 : rankGe a b) (h2 : rankGe b c) : rankGe a c := by
  unfold rankGe at h1 h2 ⊢
  omega

instance : IsTrans Row rankGe := ⟨fun a b c => rankGe_trans a b c⟩

theorem insertRow_head? (r : Row) :
    ∀ l : List Row, (insertRow r l).head? = some r ∨ (insertRow r l).head? = l.head?
  | [] => Or.inl rfl
  | x :: xs => by
    unfold insertRow
    by_cases h : rankGe x r
    · simp only [if_pos h]
      exact Or.inr rfl
    · simp only [if_neg h]
      exact Or.inl rfl

theorem chain'_insertRow (r : Row) :
    ∀ l : List Row, List.Chain' rankGe l → List.Chain' rankGe (insertRow r l)
  | [], _ => by simp [insertRow]
  | x :: xs, h => by
    unfold insertRow
    by_cases hx : rankGe x r
    · simp only [if_pos hx]
      rw [List.chain'_cons']
      refine ⟨fun y hy => ?_, chain'_insertRow r xs (List.Chain'.tail h)⟩
      rcases insertRow_head? r xs with hh | hh
      · rw [hh] at hy
        simp only [Option.mem_def, Option.some_inj] at hy
        exact hy ▸ hx
      · rw [hh] at hy
        exact (List.chain'_cons'.1 h).1 y hy
    · simp only [if_neg hx]
      rw [List.chain'_cons']
      refine ⟨fun y hy => ?_, h⟩
      simp only [List.head?_cons, Option.mem_def, Option.some_inj] at hy
      subst hy
      exact (rankGe_total r x).resolve_right fun hc => hx hc

theorem chain'_sortRows : ∀ l : List Row, List.Chain' rankGe (sortRows l)
  | [] => List.chain'_nil
  | x :: xs => chain'_insertRow x (sortRows xs) (chain'_sortRows xs)

/-- C6: the rows returned by `calculate_group_standings` are sorted by
descending points, then (on equal points) by descending set difference, then
(on equal points and set difference) by descending sets won. -/
theorem calculate_group_standings_sorted (teams : List String) (ms : List GMatch) :
    List.Pairwise (fun a b : Row =>
      b.points < a.points ∨ (a.points = b.points ∧
        (b.setsWon - b.setsLost < a.setsWon - a.setsLost ∨
          (a.setsWon - a.setsLost = b.setsWon - b.setsLost ∧ b.setsWon ≤ a.setsWon))))
      (calculate_group_standings teams ms) := by
  have h := List.chain'_iff_pairwise.1
    (chain'_sortRows (ms.foldl processMatch (initStandings teams)))
  exact h.imp fun hab => hab

/-! Theorems: bracket builder. -/

theorem filterMap_range4 {β : Type} (f : Nat → Option β) (b0 b1 b2 b3 : β)
    (h0 : f 0 = some b0) (h1 : f 1 = some b1) (h2 : f 2 = some b2)
    (h3 : f 3 = some b3) :
    (List.range 4).filterMap f = [b0, b1, b2, b3] := by
  have e : List.range 4 = [0, 1, 2, 3] := rfl
  rw [e]
  simp [List.filterMap_cons, h0, h1, h2, h3]

theorem filterMap_range2 {β : Type} (f : Nat → Option β) (b0 b1 : β)
    (h0 : f 0 = some b0) (h1 : f 1 = some b1) :
    (List.range 2).filterMap f = [b0, b1] := by
  have e : List.range 2 = [0, 1] := rfl
  rw [e]
  simp [List.filterMap_cons, h0, h1]

theorem generate_playoffs_eval_ge8 (q : List String) (h : 8 ≤ q.length) :
    generate_playoffs q =
      [mkPM "Quarterfinals" (q.getD 0 "") (q.getD (q.length - 1 - 0) ""),
       mkPM "Quarterfinals" (q.getD 1 "") (q.getD (q.length - 1 - 1) ""),
       mkPM "Quarterfinals" (q.getD 2 "") (q.getD (q.length - 1 - 2) ""),
       mkPM "Quarterfinals" (q.getD 3 "") (q.getD (q.length - 1 - 3) ""),
       mkPM "Semifinals" "QF1 Winner" "QF2 Winner",
       mkPM "Semifinals" "QF3 Winner" "QF4 Winner",
       mkPM "Finals" "SF1 Winner" "SF2 Winner",
       mkPM "Third Place" "SF1 Loser" "SF2 Loser"] := by
  unfold generate_playoffs
  rw [if_pos h]
  rw [filterMap_range4
    (fun i => if i < q.length ∧ q.length - 1 - i < q.length then
      some (mkPM "Quarterfinals" (q.getD i "") (q.getD (q.length - 1 - i) ""))
      else none)
    _ _ _ _ (if_pos ⟨by omega, by omega⟩) (if_pos ⟨by omega, by omega⟩)
    (if_pos ⟨by omega, by omega⟩) (if_pos ⟨by omega, by omega⟩)]
  rfl

theorem generate_playoffs_eval_ge4 (q : List String) (h4 : 4 ≤ q.length)
    (h8 : q.length < 8) :
    generate_playoffs q =
      [mkPM "Semifinals" (q.getD 0 "") (q.getD (q.length - 1 - 0) ""),
       mkPM "Semifinals" (q.getD 1 "") (q.getD (q.length - 1 - 1) ""),
       mkPM "Finals" "SF1 Winner" "SF2 Winner",
       mkPM "Third Place" "SF1 Loser" "SF2 Loser"] := by
  unfold generate_playoffs
  rw [if_neg (by omega), if_pos h4]
  rw [filterMap_range2
    (fun i => if i < q.length ∧ q.length - 1 - i < q.length then
      some (mkPM "Semifinals" (q.getD i "") (q.getD (q.length - 1 - i) ""))
      else none)
    _ _ (if_pos ⟨by omega, by omega⟩) (if_pos ⟨by omega, by omega⟩)]
  rfl

/-- C7: the bracket shape depends only on the count of qualified teams:
at least 8 teams give 4 Quarterfinals, 2 Semifinals, 1 Final and 1 Third-Place
match (8 rows); 4 to 7 teams give 2 Semifinals, 1 Final and 1 Third-Place
match (4 rows); 2 or 3 teams give a single Final between the first two
qualified teams; fewer than 2 teams give no bracket. -/
theorem generate_playoffs_shape (q : List String) :
    (8 ≤ q.length →
      (generate_playoffs q).length = 8 ∧
      ((generate_playoffs q).filter fun m => m.fase == "Quarterfinals").length = 4 ∧
      ((generate_playoffs q).filter fun m => m.fase == "Semifinals").length = 2 ∧
      ((generate_playoffs q).filter fun m => m.fase == "Finals").length = 1 ∧
      ((generate_playoffs q).filter fun m => m.fase == "Third Place").length = 1) ∧
    (4 ≤ q.length → q.length ≤ 7 →
      (generate_playoffs q).length = 4 ∧
      ((generate_playoffs q).filter fun m => m.fase == "Quarterfinals").length = 0 ∧
      ((generate_playoffs q).filter fun m => m.fase == "Semifinals").length = 2 ∧
      ((generate_playoffs q).filter fun m => m.fase == "Finals").length = 1 ∧
      ((generate_playoffs q).filter fun m => m.fase == "Third Place").length = 1) ∧
    (2 ≤ q.length → q.length ≤ 3 →
      generate_playoffs q = [mkPM "Finals" (q.getD 0 "") (q.getD 1 "")]) ∧
    (q.length < 2 → generate_playoffs q = []) := by
  refine ⟨fun h8 => ?_, fun h4 h7 => ?_, fun h2 h3 => ?_, fun h1 => ?_⟩
  · rw [generate_playoffs_eval_ge8 q h8]
    refine ⟨rfl, ?_, ?_, ?_, ?_⟩ <;> simp [mkPM, List.filter]
  · rw [generate_playoffs_eval_ge4 q h4 (by omega)]
    refine ⟨rfl, ?_, ?_, ?_, ?_⟩ <;> simp [mkPM, List.filter]
  · unfold generate_playoffs
    rw [if_neg (by omega), if_neg (by omega), if_pos h2]
  · unfold generate_playoffs
    rw [if_neg (by omega), if_neg (by omega), if_neg (by omega)]

/-- Witness for C7 at concrete qualified-team counts 8, 5, 2 and 1. -/
theorem generate_playoffs_shape_witness :
    (generate_playoffs ["a", "b", "c", "d", "e", "f", "g", "h"]).length = 8 ∧
    (generate_playoffs ["a", "b", "c", "d", "e"]).length = 4 ∧
    generate_playoffs ["a", "b"] = [mkPM "Finals" "a" "b"] ∧
    generate_playoffs ["a"] = [] := by
  have h8 := generate_playoffs_shape ["a", "b", "c", "d", "e", "f", "g", "h"]
  have h5 := generate_playoffs_shape ["a", "b", "c", "d", "e"]
  have h2 := generate_playoffs_shape ["a", "b"]
  have h1 := generate_playoffs_shape ["a"]
  refine ⟨(h8.1 (by simp)).1, (h5.2.1 (by simp) (by simp)).1, ?_, h1.2.2.2 (by simp)⟩
  have := h2.2.2.1 (by simp) (by simp)
  simpa using this

theorem getD_ne_of_nodup {q : List String} (hnd : q.Nodup) {i j : Nat}
    (hi : i < q.length) (hj : j < q.length) (hij : i ≠ j) :
    q.getD i "" ≠ q.getD j "" := by
  rw [List.getD_eq_getElem q "" hi, List.getD_eq_getElem q "" hj]
  intro he
  exact hij ((List.Nodup.getElem_inj_iff hnd).1 he)

/-- C10: for 5 to 7 qualified teams the two Semifinals pair only list
positions 0 with `t-1` and 1 with `t-2`, so any qualified team at a position
from 2 through `t-3` (whose name is not one of the placeholder strings)
appears in no bracket match; analogously with at least 9 qualified teams the
Quarterfinals use only positions 0..3 and `t-4`..`t-1`, and positions 4
through `t-5` appear in no bracket match. -/
theorem generate_playoffs_middle_excluded (q : List String) (hnd : q.Nodup) :
    (5 ≤ q.length → q.length ≤ 7 →
      ∀ i name, 2 ≤ i → i + 3 ≤ q.length → q.getD i "" = name →
        name ≠ "SF1 Winner" → name ≠ "SF2 Winner" →
        name ≠ "SF1 Loser" → name ≠ "SF2 Loser" →
        ∀ m ∈ generate_playoffs q, m.side1 ≠ name ∧ m.side2 ≠ name) ∧
    (9 ≤ q.length →
      ∀ i name, 4 ≤ i → i + 5 ≤ q.length → q.getD i "" = name →
        name ≠ "QF1 Winner" → name ≠ "QF2 Winner" →
        name ≠ "QF3 Winner" → name ≠ "QF4 Winner" →
        name ≠ "SF1 Winner" → name ≠ "SF2 Winner" →
        name ≠ "SF1 Loser" → name ≠ "SF2 Loser" →
        ∀ m ∈ generate_playoffs q, m.side1 ≠ name ∧ m.side2 ≠ name) := by
  constructor
  · intro h5 h7 i name h2i hi3 hname p1 p2 p3 p4 m hm
    subst hname
    rw [generate_playoffs_eval_ge4 q (by omega) (by omega)] at hm
    have hne : ∀ j, j < q.length → j ≠ i → q.getD j "" ≠ q.getD i "" :=
      fun j hj hji => getD_ne_of_nodup hnd hj (by omega) hji
    simp only [List.mem_cons, List.not_mem_nil, or_false] at hm
    rcases hm with rfl | rfl | rfl | rfl
    · exact ⟨hne 0 (by omega) (by omega), hne (q.length - 1 - 0) (by omega) (by omega)⟩
    · exact ⟨hne 1 (by omega) (by omega), hne (q.length - 1 - 1) (by omega) (by omega)⟩
    · exact ⟨fun h => p1 h.symm, fun h => p2 h.symm⟩
    · exact ⟨fun h => p3 h.symm, fun h => p4 h.symm⟩
  · intro h9 i name h4i hi5 hname pq1 pq2 pq3 pq4 p1 p2 p3 p4 m hm
    subst hname
    rw [generate_playoffs_eval_ge8 q (by omega)] at hm
    have hne : ∀ j, j < q.length → j ≠ i → q.getD j "" ≠ q.getD i "" :=
      fun j hj hji => getD_ne_of_nodup hnd hj (by omega) hji
    simp only [List.mem_cons, List.not_mem_nil, or_false] at hm
    rcases hm with rfl | rfl | rfl | rfl | rfl | rfl | rfl | rfl
    · exact ⟨hne 0 (by omega) (by omega), hne (q.length - 1 - 0) (by omega) (by omega)⟩
    · exact ⟨hne 1 (by omega) (by omega), hne (q.length - 1 - 1) (by omega) (by omega)⟩
    · exact ⟨hne 2 (by omega) (by omega), hne (q.length - 1 - 2) (by omega) (by omega)⟩
    · exact ⟨hne 3 (by omega) (by omega), hne (q.length - 1 - 3) (by omega) (by omega)⟩
    · exact ⟨fun h => pq1 h.symm, fun h => pq2 h.symm⟩
    · exact ⟨fun h => pq3 h.symm, fun h => pq4 h.symm⟩
    · exact ⟨fun h => p1 h.symm, fun h => p2 h.symm⟩
    · exact ⟨fun h => p3 h.symm, fun h => p4 h.symm⟩

/-- Witness for C10: with five qualified teams the middle team `"c"` is on
neither side of the first Semifinal. -/
theorem generate_playoffs_middle_excluded_witness :
    (mkPM "Semifinals" "a" "e").side1 ≠ "c" ∧ (mkPM "Semifinals" "a" "e").side2 ≠ "c" := by
  have h := (generate_playoffs_middle_excluded ["a", "b", "c", "d", "e"] (by decide)).1
    (by decide) (by decide) 2 "c" (by decide) (by decide) (by decide)
    (by decide) (by decide) (by decide) (by decide)
    (mkPM "Semifinals" "a" "e") (by decide)
  exact h

/-! Theorems: bracket propagator. -/

theorem substSide_winner (fase ph repl : String) (r : PMatch) :
    (substSide fase ph repl r).winner = r.winner := by
  unfold substSide
  split_ifs <;> rfl

theorem substSide_fase (fase ph repl : String) (r : PMatch) :
    (substSide fase ph repl r).fase = r.fase := by
  unfold substSide
  split_ifs <;> rfl

theorem substSide_scores (fase ph repl : String) (r : PMatch) :
    (substSide fase ph repl r).score1 = r.score1 ∧
    (substSide fase ph repl r).score2 = r.score2 := by
  unfold substSide
  split_ifs <;> exact ⟨rfl, rfl⟩

theorem findIdx_set_eq (p : PMatch → Bool) :
    ∀ (ps : List PMatch) (i : Nat) (row a : PMatch), ps[i]? = some row →
      p a = p row → (ps.set i a).findIdx p = ps.findIdx p
  | [], _, _, _, h, _ => by simp at h
  | x :: xs, 0, row, a, h, hp => by
    simp only [List.getElem?_cons_zero, Option.some_inj] at h
    subst h
    simp only [List.set_cons_zero, List.findIdx_cons, hp]
  | x :: xs, i + 1, row, a, h, hp => by
    simp only [List.getElem?_cons_succ] at h
    simp only [List.set_cons_succ, List.findIdx_cons]
    rw [findIdx_set_eq p xs i row a h hp]

/-- C2 (amended): when the row at index `i` has equal present scores, the loop
body of `update_playoff_results` leaves that row's winner field empty; a drawn
Final or Third-Place row changes no other row, but a drawn Quarterfinal
(resp. Semifinal) still runs its propagation and rewrites every other row by
the placeholder substitution with the empty string as replacement. -/
theorem step_playoff_draw_spec (ps : List PMatch) (i : Nat) (row : PMatch) (s : Int)
    (hrow : ps[i]? = some row) (h1 : row.score1 = some s) (h2 : row.score2 = some s) :
    ((stepPlayoff ps i)[i]?.map fun r => r.winner) = some "" ∧
    (row.fase ≠ "Quarterfinals" → row.fase ≠ "Semifinals" →
      ∀ j, j ≠ i → (stepPlayoff ps i)[j]? = ps[j]?) ∧
    (row.fase = "Quarterfinals" → ∀ j r, j ≠ i → ps[j]? = some r →
      (stepPlayoff ps i)[j]? = some (substSide "Semifinals" (phQF (i + 1)) "" r)) ∧
    (row.fase = "Semifinals" → ∀ j r, j ≠ i → ps[j]? = some r →
      (stepPlayoff ps i)[j]? = some (substSide "Third Place"
        (phSFLose (if ps.findIdx (fun x => x.fase == "Semifinals") = i then 1 else 2)) ""
        (substSide "Finals"
          (phSFWin (if ps.findIdx (fun x => x.fase == "Semifinals") = i then 1 else 2))
          "" r))) := by
  have hlen : i < ps.length := by
    by_contra hc
    rw [List.getElem?_eq_none (by omega)] at hrow
    exact Option.noConfusion hrow
  have hset : ∀ a : PMatch, (ps.set i a)[i]? = some a :=
    fun a => List.getElem?_set_eq_of_lt a hlen
  have hsetne : ∀ (a : PMatch) (j : Nat), j ≠ i → (ps.set i a)[j]? = ps[j]? :=
    fun a j hj => List.getElem?_set_ne (fun he => hj he.symm)
  have hstep : stepPlayoff ps i =
      (if row.fase = "Quarterfinals" then
        propagate (ps.set i { row with winner := "" }) "Semifinals" (phQF (i + 1)) ""
      else if row.fase = "Semifinals" then
        propagate
          (propagate (ps.set i { row with winner := "" }) "Finals"
            (phSFWin (if (ps.set i { row with winner := "" }).findIdx
                (fun r => r.fase == "Semifinals") = i then 1 else 2)) "")
          "Third Place"
          (phSFLose (if (ps.set i { row with winner := "" }).findIdx
              (fun r => r.fase == "Semifinals") = i then 1 else 2)) ""
      else ps.set i { row with winner := "" }) := by
    unfold stepPlayoff
    rw [hrow]
    simp only [h1, h2, lt_self_iff_false, if_false]
  have hfi : (ps.set i { row with winner := "" }).findIdx
      (fun r => r.fase == "Semifinals") = ps.findIdx (fun r => r.fase == "Semifinals") :=
    findIdx_set_eq _ ps i row _ hrow rfl
  rw [hstep, hfi]
  by_cases hqf : row.fase = "Quarterfinals"
  · simp only [if_pos hqf]
    refine ⟨?_, fun hc _ => absurd hqf hc, fun _ j r hj hr => ?_, fun hc => absurd hqf (by rw [hc]; decide)⟩
    · simp only [propagate, List.getElem?_map, hset, Option.map_some', substSide_winner]
    · simp only [propagate, List.getElem?_map, hsetne _ j hj, hr, Option.map_some']
  · by_cases hsf : row.fase = "Semifinals"
    · simp only [if_neg hqf, if_pos hsf]
      refine ⟨?_, fun _ hc => absurd hsf hc, fun hc => absurd hc hqf, fun _ j r hj hr => ?_⟩
      · simp only [propagate, List.getElem?_map, hset, Option.map_some', substSide_winner]
      · simp only [propagate, List.getElem?_map, hsetne _ j hj, hr, Option.map_some']
    · simp only [if_neg hqf, if_neg hsf]
      refine ⟨?_, fun _ _ j hj => hsetne _ j hj, fun hc => absurd hc hqf,
        fun hc => absurd hc hsf⟩
      simp only [hset, Option.map_some']

/-- C4 (amended): when the row at index `i` has present, unequal scores, the
loop body of `update_playoff_results` writes the winning side into the row's
winner field, and the propagation rewrites every other row by the placeholder
substitution: on a `Semifinals` row (for a resolved Quarterfinal `i+1`) side 1
is replaced by the winner when it equals `"QF{i+1} Winner"`, otherwise side 2
is replaced when it equals the placeholder — so when both sides hold the
placeholder only side 1 is replaced, and sides holding any other string are
never changed; a resolved Semifinal likewise substitutes its winner into
`Finals` rows at `"SF{n} Winner"` and its loser into `Third Place` rows at
`"SF{n} Loser"`; resolved Finals and Third-Place rows change no other row. -/
theorem step_playoff_decisive_spec (ps : List PMatch) (i : Nat) (row : PMatch)
    (s1 s2 : Int) (hrow : ps[i]? = some row) (h1 : row.score1 = some s1)
    (h2 : row.score2 = some s2) (hne : s1 ≠ s2) :
    ((stepPlayoff ps i)[i]?.map fun r => r.winner) =
      some (if s2 < s1 then row.side1 else row.side2) ∧
    (row.fase ≠ "Quarterfinals" → row.fase ≠ "Semifinals" →
      ∀ j, j ≠ i → (stepPlayoff ps i)[j]? = ps[j]?) ∧
    (row.fase = "Quarterfinals" → ∀ j r, j ≠ i → ps[j]? = some r →
      (stepPlayoff ps i)[j]? = some (substSide "Semifinals" (phQF (i + 1))
        (if s2 < s1 then row.side1 else row.side2) r)) ∧
    (row.fase = "Semifinals" → ∀ j r, j ≠ i → ps[j]? = some r →
      (stepPlayoff ps i)[j]? = some (substSide "Third Place"
        (phSFLose (if ps.findIdx (fun x => x.fase == "Semifinals") = i then 1 else 2))
        (if s2 < s1 then row.side2 else row.side1)
        (substSide "Finals"
          (phSFWin (if ps.findIdx (fun x => x.fase == "Semifinals") = i then 1 else 2))
          (if s2 < s1 then row.side1 else row.side2) r))) := by
  have hlen : i < ps.length := by
    by_contra hc
    rw [List.getElem?_eq_none (by omega)] at hrow
    exact Option.noConfusion hrow
  have hset : ∀ a : PMatch, (ps.set i a)[i]? = some a :=
    fun a => List.getElem?_set_eq_of_lt a hlen
  have hsetne : ∀ (a : PMatch) (j : Nat), j ≠ i → (ps.set i a)[j]? = ps[j]? :=
    fun a j hj => List.getElem?_set_ne (fun he => hj he.symm)
  have hw : (if s2 < s1 then row.side1 else if s1 < s2 then row.side2 else "") =
      (if s2 < s1 then row.side1 else row.side2) := by
    rcases lt_or_gt_of_ne hne with h | h
    · have hn : ¬ s2 < s1 := by omega
      rw [if_neg hn, if_neg hn, if_pos h]
    · rw [if_pos h, if_pos h]
  have hlo : (if s2 < s1 then row.side2 else if s1 < s2 then row.side1 else "") =
      (if s2 < s1 then row.side2 else row.side1) := by
    rcases lt_or_gt_of_ne hne with h | h
    · have hn : ¬ s2 < s1 := by omega
      rw [if_neg hn, if_neg hn, if_pos h]
    · rw [if_pos h, if_pos h]
  have hstep : stepPlayoff ps i =
      (if row.fase = "Quarterfinals" then
        propagate (ps.set i { row with winner := if s2 < s1 then row.side1 else row.side2 })
          "Semifinals" (phQF (i + 1)) (if s2 < s1 then row.side1 else row.side2)
      else if row.fase = "Semifinals" then
        propagate
          (propagate
            (ps.set i { row with winner := if s2 < s1 then row.side1 else row.side2 })
            "Finals"
            (phSFWin (if (ps.set i { row with winner := if s2 < s1 then row.side1 else row.side2 }).findIdx
                (fun r => r.fase == "Semifinals") = i then 1 else 2))
            (if s2 < s1 then row.side1 else row.side2))
          "Third Place"
          (phSFLose (if (ps.set i { row with winner := if s2 < s1 then row.side1 else row.side2 }).findIdx
              (fun r => r.fase == "Semifinals") = i then 1 else 2))
          (if s2 < s1 then row.side2 else row.side1)
      else ps.set i { row with winner := if s2 < s1 then row.side1 else row.side2 }) := by
    unfold stepPlayoff
    rw [hrow]
    simp only [h1, h2, hw, hlo]
  have hfi : (ps.set i { row with winner := if s2 < s1 then row.side1 else row.side2 }).findIdx
      (fun r => r.fase == "Semifinals") = ps.findIdx (fun r => r.fase == "Semifinals") :=
    findIdx_set_eq _ ps i row _ hrow rfl
  rw [hstep, hfi]
  by_cases hqf : row.fase = "Quarterfinals"
  · simp only [if_pos hqf]
    refine ⟨?_, fun hc _ => absurd hqf hc, fun _ j r hj hr => ?_,
      fun hc => absurd hqf (by rw [hc]; decide)⟩
    · simp only [propagate, List.getElem?_map, hset, Option.map_some', substSide_winner]
    · simp only [propagate, List.getElem?_map, hsetne _ j hj, hr, Option.map_some']
  · by_cases hsf : row.fase = "Semifinals"
    · simp only [if_neg hqf, if_pos hsf]
      refine ⟨?_, fun _ hc => absurd hsf hc, fun hc => absurd hc hqf,
        fun _ j r hj hr => ?_⟩
      · simp only [propagate, List.getElem?_map, hset, Option.map_some', substSide_winner]
      · simp only [propagate, List.getElem?_map, hsetne _ j hj, hr, Option.map_some']
    · simp only [if_neg hqf, if_neg hsf]
      refine ⟨?_, fun _ _ j hj => hsetne _ j hj, fun hc => absurd hc hqf,
        fun hc => absurd hc hsf⟩
      simp only [hset, Option.map_some']

/-- C2 counterexample: on a bracket whose Quarterfinal 1 is drawn 2-2,
`update_playoff_results` leaves the drawn match's winner empty but still
propagates, overwriting the Semifinal side that held `"QF1 Winner"` with the
empty string — the side of another bracket match does change. -/
theorem update_playoff_draw_propagates_cex :
    ((update_playoff_results
        [⟨"Quarterfinals", "A", "B", some 2, some 2, ""⟩,
         ⟨"Semifinals", "QF1 Winner", "QF2 Winner", none, none, ""⟩])[0]?.map
      fun r => r.winner) = some "" ∧
    ((update_playoff_results
        [⟨"Quarterfinals", "A", "B", some 2, some 2, ""⟩,
         ⟨"Semifinals", "QF1 Winner", "QF2 Winner", none, none, ""⟩])[1]?.map
      fun r => r.side1) = some "" ∧
    (([⟨"Quarterfinals", "A", "B", some 2, some 2, ""⟩,
       ⟨"Semifinals", "QF1 Winner", "QF2 Winner", none, none, ""⟩] :
        List PMatch)[1]?.map fun r => r.side1) = some "QF1 Winner" := by
  refine ⟨?_, ?_, ?_⟩ <;> decide

/-- Witness for the amended C2 on the same drawn Quarterfinal: the step for
the drawn row clears its winner and rewrites the Semifinal row by the
empty-string substitution. -/
theorem step_playoff_draw_spec_witness :
    ((stepPlayoff
        [⟨"Quarterfinals", "A", "B", some 2, some 2, ""⟩,
         ⟨"Semifinals", "QF1 Winner", "QF2 Winner", none, none, ""⟩] 0)[0]?.map
      fun r => r.winner) = some "" ∧
    ((stepPlayoff
        [⟨"Quarterfinals", "A", "B", some 2, some 2, ""⟩,
         ⟨"Semifinals", "QF1 Winner", "QF2 Winner", none, none, ""⟩] 0)[1]? =
      some (substSide "Semifinals" (phQF 1) ""
        ⟨"Semifinals", "QF1 Winner", "QF2 Winner", none, none, ""⟩)) := by
  have h := step_playoff_draw_spec
    [⟨"Quarterfinals", "A", "B", some 2, some 2, ""⟩,
     ⟨"Semifinals", "QF1 Winner", "QF2 Winner", none, none, ""⟩] 0
    ⟨"Quarterfinals", "A", "B", some 2, some 2, ""⟩ 2 rfl rfl rfl
  exact ⟨h.1, h.2.2.1 rfl 1 ⟨"Semifinals", "QF1 Winner", "QF2 Winner", none, none, ""⟩
    (by omega) rfl⟩

/-- C4 counterexample: Quarterfinal 1 is resolved with winner `"A"`, and a
Semifinal holds the placeholder `"QF1 Winner"` on both sides; the code
replaces only side 1, leaving side 2 still equal to the placeholder, so not
every Semifinal side holding the placeholder is replaced. -/
theorem update_playoff_double_placeholder_cex :
    ((update_playoff_results
        [⟨"Quarterfinals", "A", "B", some 3, some 0, ""⟩,
         ⟨"Semifinals", "QF1 Winner", "QF1 Winner", none, none, ""⟩])[0]?.map
      fun r => r.winner) = some "A" ∧
    ((update_playoff_results
        [⟨"Quarterfinals", "A", "B", some 3, some 0, ""⟩,
         ⟨"Semifinals", "QF1 Winner", "QF1 Winner", none, none, ""⟩])[1]?.map
      fun r => r.side1) = some "A" ∧
    ((update_playoff_results
        [⟨"Quarterfinals", "A", "B", some 3, some 0, ""⟩,
         ⟨"Semifinals", "QF1 Winner", "QF1 Winner", none, none, ""⟩])[1]?.map
      fun r => r.side2) = some "QF1 Winner" := by
  refine ⟨?_, ?_, ?_⟩ <;> decide

/-- Witness for the amended C4: resolving a concrete Quarterfinal rewrites the
Semifinal row by the winner substitution, which here fills side 1 with the
winner's name and leaves side 2 (holding the other Quarterfinal's placeholder)
unchanged. -/
theorem step_playoff_decisive_spec_witness :
    ((stepPlayoff
        [⟨"Quarterfinals", "A", "B", some 3, some 0, ""⟩,
         ⟨"Semifinals", "QF1 Winner", "QF2 Winner", none, none, ""⟩] 0)[1]?.map
      fun r => r.side1) = some "A" ∧
    ((stepPlayoff
        [⟨"Quarterfinals", "A", "B", some 3, some 0, ""⟩,
         ⟨"Semifinals", "QF1 Winner", "QF2 Winner", none, none, ""⟩] 0)[1]?.map
      fun r => r.side2) = some "QF2 Winner" := by
  have h := (step_playoff_decisive_spec
    [⟨"Quarterfinals", "A", "B", some 3, some 0, ""⟩,
     ⟨"Semifinals", "QF1 Winner", "QF2 Winner", none, none, ""⟩] 0
    ⟨"Quarterfinals", "A", "B", some 3, some 0, ""⟩ 3 0 rfl rfl rfl
    (by omega)).2.2.1 rfl 1
    ⟨"Semifinals", "QF1 Winner", "QF2 Winner", none, none, ""⟩ (by omega) rfl
  rw [h]
  constructor <;> decide

theorem propagate_getElem? (ps : List PMatch) (fase ph repl : String) (j : Nat) :
    (propagate ps fase ph repl)[j]? = ps[j]?.map (substSide fase ph repl) := by
  simp [propagate]

theorem propagate_length (ps : List PMatch) (fase ph repl : String) :
    (propagate ps fase ph repl).length = ps.length := by
  simp [propagate]

theorem stepPlayoff_length (ps : List PMatch) (i : Nat) :
    (stepPlayoff ps i).length = ps.length := by
  unfold stepPlayoff
  cases h : ps[i]? with
  | none => rfl
  | some row =>
    cases hs1 : row.score1 with
    | none =>
      cases hs2 : row.score2 <;> simp only [hs1, hs2] <;> simp [List.length_set]
    | some s1 =>
      cases hs2 : row.score2 with
      | none =>
        simp only [hs1, hs2]
        simp [List.length_set]
      | some s2 =>
        simp only [hs1, hs2]
        split_ifs <;> simp [propagate, List.length_set]

theorem stepPlayoff_fss (ps : List PMatch) (i j : Nat) :
    ((stepPlayoff ps i)[j]?.map fun r => (r.fase, r.score1, r.score2)) =
      (ps[j]?.map fun r => (r.fase, r.score1, r.score2)) := by
  have hsub : ∀ (fase ph repl : String) (r : PMatch),
      ((substSide fase ph repl r).fase, (substSide fase ph repl r).score1,
        (substSide fase ph repl r).score2) = (r.fase, r.score1, r.score2) := by
    intro fase ph repl r
    rw [substSide_fase, (substSide_scores fase ph repl r).1,
      (substSide_scores fase ph repl r).2]
  have hprop : ∀ (ps' : List PMatch) (fase ph repl : String),
      ((propagate ps' fase ph repl)[j]?.map fun r => (r.fase, r.score1, r.score2)) =
        (ps'[j]?.map fun r => (r.fase, r.score1, r.score2)) := by
    intro ps' fase ph repl
    rw [propagate_getElem?]
    cases ps'[j]? with
    | none => rfl
    | some r => simp only [Option.map_some', hsub]
  have hset : ∀ (row a : PMatch), ps[i]? = some row →
      (a.fase, a.score1, a.score2) = (row.fase, row.score1, row.score2) →
      ((ps.set i a)[j]?.map fun r => (r.fase, r.score1, r.score2)) =
        (ps[j]?.map fun r => (r.fase, r.score1, r.score2)) := by
    intro row a hrow hfss
    by_cases hji : j = i
    · subst hji
      have hlen : j < ps.length := by
        by_contra hc
        rw [List.getElem?_eq_none (by omega)] at hrow
        exact Option.noConfusion hrow
      rw [List.getElem?_set_eq_of_lt a hlen, hrow, Option.map_some', Option.map_some', hfss]
    · rw [List.getElem?_set_ne (fun he => hji he.symm)]
  unfold stepPlayoff
  cases h : ps[i]? with
  | none => rfl
  | some row =>
    cases hs1 : row.score1 with
    | none =>
      cases hs2 : row.score2 <;> simp only [hs1, hs2] <;> exact hset row _ h (by rw [hs1, hs2])
    | some s1 =>
      cases hs2 : row.score2 with
      | none =>
        simp only [hs1, hs2]
        exact hset row _ h (by rw [hs1, hs2])
      | some s2 =>
        simp only [hs1, hs2]
        by_cases hqf : row.fase = "Quarterfinals"
        · rw [if_pos hqf, hprop]
          exact hset row _ h (by rw [hs1, hs2])
        · by_cases hsf : row.fase = "Semifinals"
          · rw [if_neg hqf, if_pos hsf, hprop, hprop]
            exact hset row _ h (by rw [hs1, hs2])
          · rw [if_neg hqf, if_neg hsf]
            exact hset row _ h (by rw [hs1, hs2])

theorem stepPlayoff_winner_ne (ps : List PMatch) (i j : Nat) (hij : j ≠ i) :
    ((stepPlayoff ps i)[j]?.map fun r => r.winner) = (ps[j]?.map fun r => r.winner) := by
  have hprop : ∀ (ps' : List PMatch) (fase ph repl : String),
      ((propagate ps' fase ph repl)[j]?.map fun r => r.winner) =
        (ps'[j]?.map fun r => r.winner) := by
    intro ps' fase ph repl
    rw [propagate_getElem?]
    cases ps'[j]? with
    | none => rfl
    | some r => simp only [Option.map_some', substSide_winner]
  have hset : ∀ a : PMatch, ((ps.set i a)[j]?.map fun r => r.winner) =
      (ps[j]?.map fun r => r.winner) := by
    intro a
    rw [List.getElem?_set_ne (fun he => hij he.symm)]
  unfold stepPlayoff
  cases h : ps[i]? with
  | none => rfl
  | some row =>
    cases hs1 : row.score1 with
    | none => cases hs2 : row.score2 <;> simp only [hs1, hs2] <;> exact hset _
    | some s1 =>
      cases hs2 : row.score2 with
      | none =>
        simp only [hs1, hs2]
        exact hset _
      | some s2 =>
        simp only [hs1, hs2]
        by_cases hqf : row.fase = "Quarterfinals"
        · rw [if_pos hqf, hprop]
          exact hset _
        · by_cases hsf : row.fase = "Semifinals"
          · rw [if_neg hqf, if_pos hsf, hprop, hprop]
            exact hset _
          · rw [if_neg hqf, if_neg hsf]
            exact hset _

theorem stepPlayoff_winner_draw (ps : List PMatch) (i : Nat) (row : PMatch) (s : Int)
    (hrow : ps[i]? = some row) (h1 : row.score1 = some s) (h2 : row.score2 = some s) :
    ((stepPlayoff ps i)[i]?.map fun r => r.winner) = some "" := by
  have hlen : i < ps.length := by
    by_contra hc
    rw [List.getElem?_eq_none (by omega)] at hrow
    exact Option.noConfusion hrow
  have hset : ∀ a : PMatch, (ps.set i a)[i]? = some a :=
    fun a => List.getElem?_set_eq_of_lt a hlen
  have hprop : ∀ (ps' : List PMatch) (fase ph repl w : String),
      (ps'[i]?.map fun r => r.winner) = some w →
      ((propagate ps' fase ph repl)[i]?.map fun r => r.winner) = some w := by
    intro ps' fase ph repl w hw
    rw [propagate_getElem?]
    cases hcase : ps'[i]? with
    | none =>
      simp only [hcase, Option.map_none'] at hw
      exact Option.noConfusion hw
    | some r =>
      simp only [hcase, Option.map_some'] at hw
      simp only [Option.map_some', substSide_winner]
      exact hw
  unfold stepPlayoff
  rw [hrow]
  simp only [h1, h2, lt_self_iff_false, if_false]
  by_cases hqf : row.fase = "Quarterfinals"
  · rw [if_pos hqf]
    exact hprop _ _ _ _ _ (by rw [hset, Option.map_some'])
  · by_cases hsf : row.fase = "Semifinals"
    · rw [if_neg hqf, if_pos hsf]
      exact hprop _ _ _ _ _ (hprop _ _ _ _ _ (by rw [hset, Option.map_some']))
    · rw [if_neg hqf, if_neg hsf]
      rw [hset, Option.map_some']

theorem foldl_step_length (L : List Nat) :
    ∀ ps : List PMatch, (L.foldl stepPlayoff ps).length = ps.length := by
  induction L with
  | nil => intro ps; rfl
  | cons i L ih =>
    intro ps
    rw [List.foldl_cons, ih, stepPlayoff_length]

theorem foldl_step_fss (L : List Nat) :
    ∀ (ps : List PMatch) (j : Nat),
      ((L.foldl stepPlayoff ps)[j]?.map fun r => (r.fase, r.score1, r.score2)) =
        (ps[j]?.map fun r => (r.fase, r.score1, r.score2)) := by
  induction L with
  | nil => intro ps j; rfl
  | cons i L ih =>
    intro ps j
    rw [List.foldl_cons, ih, stepPlayoff_fss]

theorem foldl_step_winner_notmem (L : List Nat) :
    ∀ (ps : List PMatch) (j : Nat), j ∉ L →
      ((L.foldl stepPlayoff ps)[j]?.map fun r => r.winner) =
        (ps[j]?.map fun r => r.winner) := by
  induction L with
  | nil => intro ps j _; rfl
  | cons i L ih =>
    intro ps j hj
    rw [List.mem_cons, not_or] at hj
    rw [List.foldl_cons, ih _ j hj.2, stepPlayoff_winner_ne _ _ _ hj.1]

theorem update_playoff_results_length (ps : List PMatch) :
    (update_playoff_results ps).length = ps.length :=
  foldl_step_length _ ps

theorem update_playoff_results_fss (ps : List PMatch) (j : Nat) :
    ((update_playoff_results ps)[j]?.map fun r => (r.fase, r.score1, r.score2)) =
      (ps[j]?.map fun r => (r.fase, r.score1, r.score2)) :=
  foldl_step_fss _ ps j

theorem update_playoff_results_winner_draw (ps : List PMatch) (j : Nat) (f : PMatch)
    (s : Int) (hj : ps[j]? = some f) (h1 : f.score1 = some s) (h2 : f.score2 = some s) :
    ((update_playoff_results ps)[j]?.map fun r => r.winner) = some "" := by
  have hlen : j < ps.length := by
    by_contra hc
    rw [List.getElem?_eq_none (by omega)] at hj
    exact Option.noConfusion hj
  have hsplit : List.range ps.length =
      List.range j ++ j :: List.range' (j + 1) (ps.length - (j + 1)) := by
    rw [List.range_eq_range']
    have h0 : List.range' 0 j ++ List.range' (0 + j) (ps.length - j) =
        List.range' 0 ((ps.length - j) + j) := List.range'_append_1 0 j (ps.length - j)
    have h1 : (ps.length - j) + j = ps.length := by omega
    have h2 : ps.length - j = (ps.length - (j + 1)) + 1 := by omega
    rw [h1] at h0
    rw [← h0, h2, List.range'_succ]
    simp [List.range_eq_range']
  unfold update_playoff_results
  rw [hsplit, List.foldl_append, List.foldl_cons]
  have hmid := foldl_step_fss (List.range j) ps j
  rw [hj, Option.map_some'] at hmid
  obtain ⟨f1, hf1⟩ : ∃ f1, ((List.range j).foldl stepPlayoff ps)[j]? = some f1 := by
    cases hcase : ((List.range j).foldl stepPlayoff ps)[j]? with
    | none =>
      rw [hcase, Option.map_none'] at hmid
      exact Option.noConfusion hmid
    | some f1 => exact ⟨f1, rfl⟩
  rw [hf1, Option.map_some', Option.some_inj] at hmid
  have hf1s1 : f1.score1 = some s := by
    have := congrArg (fun p => p.2.1) hmid
    simpa [h1] using this
  have hf1s2 : f1.score2 = some s := by
    have := congrArg (fun p => p.2.2) hmid
    simpa [h2] using this
  rw [foldl_step_winner_notmem _ _ j (by
    intro hc
    obtain ⟨k, hk, he⟩ := List.mem_range'.1 hc
    omega)]
  exact stepPlayoff_winner_draw _ j f1 s hf1 hf1s1 hf1s2

theorem find?_eq_of_first (p : PMatch → Bool) :
    ∀ (l : List PMatch) (j : Nat) (a : PMatch), l[j]? = some a → p a = true →
      (∀ k b, k < j → l[k]? = some b → p b = false) → l.find? p = some a
  | [], j, a, h, _, _ => by simp at h
  | x :: xs, 0, a, h, hp, _ => by
    simp only [List.getElem?_cons_zero, Option.some_inj] at h
    subst h
    exact List.find?_cons_of_pos _ hp
  | x :: xs, j + 1, a, h, hp, hfirst => by
    simp only [List.getElem?_cons_succ] at h
    have hx : p x = false := hfirst 0 x (by omega) (by simp)
    rw [List.find?_cons_of_neg _ (by simp [hx])]
    exact find?_eq_of_first p xs j a h hp
      (fun k b hk hb => hfirst (k + 1) b (by omega) (by simpa using hb))

theorem check_complete_update (ps : List PMatch)
    (hc : check_playoffs_complete ps = true) :
    check_playoffs_complete (update_playoff_results ps) = true := by
  unfold check_playoffs_complete at hc ⊢
  rw [Bool.and_eq_true] at hc ⊢
  constructor
  · have h1 := hc.1
    rw [Bool.not_eq_true'] at h1 ⊢
    have hlen := update_playoff_results_length ps
    cases hu : update_playoff_results ps with
    | nil =>
      rw [hu] at hlen
      cases hps : ps with
      | nil => rw [hps] at h1; exact absurd h1 (by simp)
      | cons x xs => rw [hps] at hlen; simp at hlen
    | cons x xs => simp
  · rw [List.all_eq_true] at hc ⊢
    intro m hm
    obtain ⟨k, hk⟩ := List.mem_iff_getElem?.1 hm
    have hfss := update_playoff_results_fss ps k
    rw [hk, Option.map_some'] at hfss
    obtain ⟨m0, hm0⟩ : ∃ m0, ps[k]? = some m0 := by
      cases hcase : ps[k]? with
      | none => rw [hcase, Option.map_none'] at hfss; exact Option.noConfusion hfss
      | some m0 => exact ⟨m0, rfl⟩
    rw [hm0, Option.map_some', Option.some_inj] at hfss
    have hs1 : m.score1 = m0.score1 := congrArg (fun p => p.2.1) hfss
    have hs2 : m.score2 = m0.score2 := congrArg (fun p => p.2.2) hfss
    have := hc.2 m0 (List.getElem?_mem hm0)
    rw [Bool.and_eq_true] at this ⊢
    rw [hs1, hs2]
    exact this

theorem foldl_appendRemaining_prefix (names : List String) :
    ∀ st : Nat × List (Nat × String),
      ∃ suf, (names.foldl appendRemaining st).2 = st.2 ++ suf := by
  induction names with
  | nil => intro st; exact ⟨[], by simp⟩
  | cons t ts ih =>
    intro st
    rw [List.foldl_cons]
    obtain ⟨suf, hsuf⟩ := ih (appendRemaining st t)
    by_cases h : st.2.any (fun p => p.2 == t)
    · refine ⟨suf, ?_⟩
      rw [hsuf]
      unfold appendRemaining
      rw [if_pos h]
    · refine ⟨(st.1, t) :: suf, ?_⟩
      rw [hsuf]
      unfold appendRemaining
      rw [if_neg h]
      simp

/-- C9: when every playoff match has both scores set but the Final's scores
are equal, `check_playoffs_complete` still returns `true`, and
`generate_final_standings` (run on the bracket after `update_playoff_results`,
which leaves the drawn Final's winner field empty) assigns position 1 to the
empty string and position 2 to the Final's side-2 team, returning a standings
list instead of refusing or signalling an error. -/
theorem drawn_final_standings (ps : List PMatch)
    (groups : List (List String × List GMatch)) (j : Nat) (f : PMatch) (s : Int)
    (hcomp : check_playoffs_complete ps = true)
    (hj : ps[j]? = some f) (hfF : f.fase = "Finals")
    (hfirst : ∀ k b, k < j → ps[k]? = some b → b.fase ≠ "Finals")
    (hs1 : f.score1 = some s) (hs2 : f.score2 = some s)
    (hside : ∀ f', (update_playoff_results ps)[j]? = some f' → f'.side2 ≠ "") :
    check_playoffs_complete (update_playoff_results ps) = true ∧
    ∃ f' l, (update_playoff_results ps)[j]? = some f' ∧
      generate_final_standings (update_playoff_results ps) groups = some l ∧
      l[0]? = some (1, "") ∧ l[1]? = some (2, f'.side2) := by
  have hcomp' := check_complete_update ps hcomp
  refine ⟨hcomp', ?_⟩
  have hfss := update_playoff_results_fss ps j
  rw [hj, Option.map_some'] at hfss
  obtain ⟨f', hf'⟩ : ∃ f', (update_playoff_results ps)[j]? = some f' := by
    cases hcase : (update_playoff_results ps)[j]? with
    | none => rw [hcase, Option.map_none'] at hfss; exact Option.noConfusion hfss
    | some f' => exact ⟨f', rfl⟩
  rw [hf', Option.map_some', Option.some_inj] at hfss
  have hf'F : f'.fase = "Finals" := by
    have := congrArg (fun p => p.1) hfss
    simpa [hfF] using this
  have hwin := update_playoff_results_winner_draw ps j f s hj hs1 hs2
  rw [hf', Option.map_some', Option.some_inj] at hwin
  have hfind : (update_playoff_results ps).find? (fun m => m.fase == "Finals") = some f' := by
    apply find?_eq_of_first _ _ j f' hf' (by simp [hf'F])
    intro k b hk hb
    have hkf := update_playoff_results_fss ps k
    rw [hb, Option.map_some'] at hkf
    obtain ⟨b0, hb0⟩ : ∃ b0, ps[k]? = some b0 := by
      cases hcase : ps[k]? with
      | none => rw [hcase, Option.map_none'] at hkf; exact Option.noConfusion hkf
      | some b0 => exact ⟨b0, rfl⟩
    rw [hb0, Option.map_some', Option.some_inj] at hkf
    have hbf : b.fase = b0.fase := congrArg (fun p => p.1) hkf
    have hnf := hfirst k b0 hk hb0
    simp [hbf, hnf]
  have hru : runnerUpOf f' = f'.side2 := by
    unfold runnerUpOf
    rw [if_neg]
    rw [hwin]
    exact fun he => hside f' hf' he.symm
  unfold generate_final_standings
  rw [hcomp']
  simp only [Bool.true_eq_false, if_false, hfind]
  set base2 :=
    (match (update_playoff_results ps).find? (fun m => m.fase == "Third Place") with
      | none => [(1, f'.winner), (2, runnerUpOf f')]
      | some tp => [(1, f'.winner), (2, runnerUpOf f')] ++ [(3, tp.winner), (4, runnerUpOf tp)]) ++
    (((update_playoff_results ps).filter fun m => m.fase == "Quarterfinals").map
      runnerUpOf).enum.map (fun p => (5 + p.1, p.2)) with hbase2
  obtain ⟨rest, hrest⟩ : ∃ rest, base2 = (1, f'.winner) :: (2, runnerUpOf f') :: rest := by
    rw [hbase2]
    cases (update_playoff_results ps).find? (fun m => m.fase == "Third Place") with
    | none => exact ⟨_, rfl⟩
    | some tp => exact ⟨_, rfl⟩
  obtain ⟨suf, hsuf⟩ := foldl_appendRemaining_prefix
    ((groups.flatMap fun g => (calculate_group_standings g.1 g.2).map Row.team))
    (base2.length + 1, base2)
  refine ⟨f', _, hf', rfl, ?_, ?_⟩
  · rw [hsuf, hrest]
    simp [hwin]
  · rw [hsuf, hrest]
    simp [hru]

/-- Witness for C9 on the concrete four-team bracket `psC9` whose Final is
drawn 2-2: the completeness check passes and the standings put the empty
string first and the Final's side-2 team (`"B"`) second. -/
theorem drawn_final_standings_witness :
    check_playoffs_complete (update_playoff_results psC9) = true ∧
    ((generate_final_standings (update_playoff_results psC9) groupsC9).map
      fun l => (l[0]?, l[1]?)) = some (some (1, ""), some (2, "B")) := by
  have he : (update_playoff_results psC9)[2]? =
      some ⟨"Finals", "A", "B", some 2, some 2, ""⟩ := by decide
  have h := drawn_final_standings psC9 groupsC9 2
    ⟨"Finals", "SF1 Winner", "SF2 Winner", some 2, some 2, ""⟩ 2
    (by decide) (by decide) (by decide)
    (by
      intro k b hk hb
      interval_cases k <;> simp only [psC9] at hb <;>
        simp only [List.getElem?_cons_zero, List.getElem?_cons_succ,
          Option.some_inj] at hb <;> rw [← hb] <;> decide)
    (by decide) (by decide)
    (by
      intro f' hf'
      rw [he, Option.some_inj] at hf'
      rw [← hf']
      decide)
  obtain ⟨hc, f', l, hf', hl, h0, h1⟩ := h
  rw [he, Option.some_inj] at hf'
  refine ⟨hc, ?_⟩
  rw [hl, Option.map_some', h0, h1, ← hf']

/-! Theorems: final ranking assembler. -/

theorem insertRow_perm (r : Row) : ∀ l : List Row, (insertRow r l).Perm (r :: l)
  | [] => List.Perm.refl _
  | x :: xs => by
    unfold insertRow
    by_cases h : rankGe x r
    · rw [if_pos h]
      exact ((insertRow_perm r xs).cons x).trans (List.Perm.swap r x xs)
    · rw [if_neg h]

theorem sortRows_perm : ∀ l : List Row, (sortRows l).Perm l
  | [] => List.Perm.refl _
  | x :: xs => (insertRow_perm x (sortRows xs)).trans ((sortRows_perm xs).cons x)

theorem updateRow_map_team (name : String) (f : Row → Row)
    (hf : ∀ r, (f r).team = r.team) :
    ∀ st : List Row, (updateRow name f st).map Row.team = st.map Row.team
  | [] => rfl
  | r :: rs => by
    unfold updateRow
    by_cases h : r.team = name
    · rw [if_pos h]
      simp [hf]
    · rw [if_neg h]
      simp [updateRow_map_team name f hf rs]

theorem processMatch_map_team (st : List Row) (m : GMatch) :
    (processMatch st m).map Row.team = st.map Row.team := by
  unfold processMatch
  cases hs1 : m.score1 with
  | none => cases hs2 : m.score2 <;> simp only [hs1, hs2]
  | some s1 =>
    cases hs2 : m.score2 with
    | none => simp only [hs1, hs2]
    | some s2 =>
      simp only [hs1, hs2]
      by_cases h1 : s2 < s1
      · rw [if_pos h1]
        rw [updateRow_map_team m.side2 (awardLoss s1 s2) (fun r => rfl),
          updateRow_map_team m.side1 awardWin (fun r => rfl),
          updateRow_map_team m.side2 (accrueFor s2 s1) (fun r => rfl),
          updateRow_map_team m.side1 (accrueFor s1 s2) (fun r => rfl)]
      · by_cases h2 : s1 < s2
        · rw [if_neg h1, if_pos h2]
          rw [updateRow_map_team m.side1 (awardLoss s2 s1) (fun r => rfl),
            updateRow_map_team m.side2 awardWin (fun r => rfl),
            updateRow_map_team m.side2 (accrueFor s2 s1) (fun r => rfl),
            updateRow_map_team m.side1 (accrueFor s1 s2) (fun r => rfl)]
        · rw [if_neg h1, if_neg h2]
          rw [updateRow_map_team m.side2 (accrueFor s2 s1) (fun r => rfl),
            updateRow_map_team m.side1 (accrueFor s1 s2) (fun r => rfl)]

theorem foldl_processMatch_map_team (ms : List GMatch) :
    ∀ st : List Row, (ms.foldl processMatch st).map Row.team = st.map Row.team := by
  induction ms with
  | nil => intro st; rfl
  | cons m ms ih =>
    intro st
    rw [List.foldl_cons, ih, processMatch_map_team]

theorem standings_team_perm (teams : List String) (ms : List GMatch) :
    ((calculate_group_standings teams ms).map Row.team).Perm teams := by
  unfold calculate_group_standings
  refine ((sortRows_perm _).map Row.team).trans ?_
  rw [foldl_processMatch_map_team]
  simp only [initStandings, List.map_map]
  have : (Row.team ∘ fun t => (⟨t, 0, 0, 0, 0, 0, 0⟩ : Row)) = id := rfl
  rw [this, List.map_id]

theorem flatMap_standings_perm (groups : List (List String × List GMatch)) :
    (groups.flatMap fun g => (calculate_group_standings g.1 g.2).map Row.team).Perm
      (groups.flatMap fun g => g.1) := by
  induction groups with
  | nil => exact List.Perm.refl _
  | cons g gs ih =>
    simp only [List.flatMap_cons]
    exact (standings_team_perm g.1 g.2).append ih

theorem foldl_appendRemaining_fst (names : List String) :
    ∀ st : Nat × List (Nat × String), st.1 = st.2.length + 1 →
      st.2.map Prod.fst = List.range' 1 st.2.length →
      (names.foldl appendRemaining st).2.map Prod.fst =
        List.range' 1 (names.foldl appendRemaining st).2.length := by
  induction names with
  | nil => intro st _ h2; exact h2
  | cons t ts ih =>
    intro st h1 h2
    rw [List.foldl_cons]
    by_cases h : st.2.any (fun p => p.2 == t)
    · have hA : appendRemaining st t = st := by
        unfold appendRemaining
        rw [if_pos h]
      rw [hA]
      exact ih st h1 h2
    · have hA : appendRemaining st t = (st.1 + 1, st.2 ++ [(st.1, t)]) := by
        unfold appendRemaining
        rw [if_neg h]
      rw [hA]
      apply ih
      · simp only [List.length_append, List.length_cons, List.length_nil]
        omega
      · simp only [List.map_append, h2, List.map_cons, List.map_nil,
          List.length_append, List.length_cons, List.length_nil, h1]
        have hr : List.range' 1 st.2.length ++ List.range' (1 + st.2.length) 1 =
            List.range' 1 (1 + st.2.length) := List.range'_append_1 1 st.2.length 1
        rw [List.range'_one] at hr
        have e1 : st.2.length + 1 = 1 + st.2.length := by omega
        rw [e1]
        exact hr

theorem foldl_appendRemaining_snd (names : List String) :
    ∀ st : Nat × List (Nat × String), names.Nodup →
      (names.foldl appendRemaining st).2.map Prod.snd =
        st.2.map Prod.snd ++ names.filter (fun t => !st.2.any (fun p => p.2 == t)) := by
  induction names with
  | nil => intro st _; simp
  | cons t ts ih =>
    intro st hnd
    rw [List.nodup_cons] at hnd
    rw [List.foldl_cons, List.filter_cons]
    by_cases h : st.2.any (fun p => p.2 == t)
    · have hA : appendRemaining st t = st := by
        unfold appendRemaining
        rw [if_pos h]
      rw [hA, ih st hnd.2]
      simp [h]
    · have hA : appendRemaining st t = (st.1 + 1, st.2 ++ [(st.1, t)]) := by
        unfold appendRemaining
        rw [if_neg h]
      rw [hA, ih _ hnd.2]
      have hfe : ∀ u ∈ ts,
          (!(st.2 ++ [(st.1, t)]).any (fun p => p.2 == u)) =
            (!st.2.any (fun p => p.2 == u)) := by
        intro u hu
        have hut : (t == u) = false := by
          have : u ≠ t := fun he => hnd.1 (he ▸ hu)
          exact beq_false_of_ne fun he => this he.symm
        simp [List.any_append, hut]
      rw [List.filter_congr hfe]
      simp [h, List.map_append]

theorem perm_assigned_filter (all b : List String) (hall : all.Nodup)
    (hb : b.Nodup) (hsub : ∀ t ∈ b, t ∈ all) :
    (b ++ all.filter fun t => !b.any (fun x => x == t)).Perm all := by
  rw [List.perm_iff_count]
  intro a
  rw [List.count_append]
  by_cases ha : a ∈ b
  · have hb1 : b.count a = 1 := List.count_eq_one_of_mem hb ha
    have hall1 : all.count a = 1 := List.count_eq_one_of_mem hall (hsub a ha)
    have hf0 : (all.filter fun t => !b.any (fun x => x == t)).count a = 0 := by
      rw [List.count_eq_zero]
      intro hmem
      have hp := List.of_mem_filter hmem
      rw [Bool.not_eq_true'] at hp
      have : b.any (fun x => x == a) = true :=
        List.any_eq_true.2 ⟨a, ha, by simp⟩
      rw [this] at hp
      exact Bool.noConfusion hp
    omega
  · have hb0 : b.count a = 0 := List.count_eq_zero.2 ha
    have hfeq : (all.filter fun t => !b.any (fun x => x == t)).count a = all.count a := by
      apply List.count_filter
      rw [Bool.not_eq_true']
      rw [← Bool.not_eq_true]
      intro hc
      obtain ⟨x, hx, hxa⟩ := List.any_eq_true.1 hc
      rw [beq_iff_eq] at hxa
      exact ha (hxa ▸ hx)
    omega

theorem enumPart_fst (qs : List String) :
    ((qs.enum.map fun p => (5 + p.1, p.2)).map Prod.fst) = List.range' 5 qs.length := by
  rw [List.map_map]
  have h1 : (Prod.fst ∘ fun p : Nat × String => (5 + p.1, p.2)) =
      ((fun n => 5 + n) ∘ Prod.fst) := rfl
  rw [h1, ← List.map_map, List.enum_map_fst, ← List.range'_eq_map_range]

theorem enumPart_snd (qs : List String) :
    ((qs.enum.map fun p => (5 + p.1, p.2)).map Prod.snd) = qs := by
  rw [List.map_map]
  have h1 : (Prod.snd ∘ fun p : Nat × String => (5 + p.1, p.2)) = Prod.snd := rfl
  rw [h1, List.enum_map_snd]

theorem any_map_snd (b2 : List (Nat × String)) (t : String) :
    (List.map Prod.snd b2).any (fun x => x == t) = b2.any (fun p => p.2 == t) := by
  induction b2 with
  | nil => rfl
  | cons x xs ih => simp only [List.map_cons, List.any_cons, ih]

theorem base2_fst_tp (w ru tw tru : String) (qs : List String) :
    ((([(1, w), (2, ru)] ++ [(3, tw), (4, tru)]) ++
      qs.enum.map fun p : Nat × String => (5 + p.1, p.2)).map Prod.fst) =
    List.range' 1 ((([(1, w), (2, ru)] ++ [(3, tw), (4, tru)]) ++
      qs.enum.map fun p : Nat × String => (5 + p.1, p.2)).length) := by
  rw [List.map_append, enumPart_fst]
  have hr := List.range'_append_1 1 4 qs.length
  have e5 : (1 + 4) = 5 := rfl
  rw [e5] at hr
  have hlen : ((([(1, w), (2, ru)] ++ [(3, tw), (4, tru)]) ++
      qs.enum.map fun p : Nat × String => (5 + p.1, p.2)).length) = qs.length + 4 := by
    simp only [List.length_append, List.length_cons, List.length_nil,
      List.length_map, List.enum_length]
    omega
  rw [hlen, ← hr]
  rfl

theorem gfs_assemble (ps : List PMatch) (groups : List (List String × List GMatch))
    (f : PMatch) (base2 : List (Nat × String))
    (hbfst : base2.map Prod.fst = List.range' 1 base2.length)
    (hbsnd : base2.map Prod.snd = assignedTeams ps)
    (hpre : ∃ rest, base2 = (1, f.winner) :: (2, runnerUpOf f) :: rest)
    (hnd : (groups.flatMap fun g => g.1).Nodup)
    (hband : (assignedTeams ps).Nodup)
    (hbsub : ∀ t ∈ assignedTeams ps, t ∈ groups.flatMap fun g => g.1) :
    (((groups.flatMap fun g => (calculate_group_standings g.1 g.2).map Row.team).foldl
        appendRemaining (base2.length + 1, base2)).2.map Prod.fst =
      List.range' 1 (groups.flatMap fun g => g.1).length) ∧
    ((((groups.flatMap fun g => (calculate_group_standings g.1 g.2).map Row.team).foldl
        appendRemaining (base2.length + 1, base2)).2.map Prod.snd).Perm
      (groups.flatMap fun g => g.1)) ∧
    (((groups.flatMap fun g => (calculate_group_standings g.1 g.2).map Row.team).foldl
        appendRemaining (base2.length + 1, base2)).2)[0]? = some (1, f.winner) ∧
    (((groups.flatMap fun g => (calculate_group_standings g.1 g.2).map Row.team).foldl
        appendRemaining (base2.length + 1, base2)).2)[1]? = some (2, runnerUpOf f) := by
  have hperm : (groups.flatMap fun g => (calculate_group_standings g.1 g.2).map Row.team).Perm
      (groups.flatMap fun g => g.1) := flatMap_standings_perm groups
  have hnamesnd : (groups.flatMap fun g => (calculate_group_standings g.1 g.2).map Row.team).Nodup :=
    hperm.nodup_iff.2 hnd
  have hsnd := foldl_appendRemaining_snd
    (groups.flatMap fun g => (calculate_group_standings g.1 g.2).map Row.team)
    (base2.length + 1, base2) hnamesnd
  have hpermsnd : ((((groups.flatMap fun g =>
      (calculate_group_standings g.1 g.2).map Row.team).foldl
        appendRemaining (base2.length + 1, base2)).2.map Prod.snd).Perm
      (groups.flatMap fun g => g.1)) := by
    rw [hsnd]
    have hstep1 := (hperm.filter (fun t => !base2.any (fun p => p.2 == t))).append_left
      (base2.map Prod.snd)
    refine hstep1.trans ?_
    rw [hbsnd]
    have hpeq : ∀ t ∈ (groups.flatMap fun g => g.1),
        (!base2.any fun p => p.2 == t) = (!(assignedTeams ps).any fun x => x == t) := by
      intro t _
      rw [← hbsnd, any_map_snd]
    rw [List.filter_congr hpeq]
    exact perm_assigned_filter (groups.flatMap fun g => g.1) (assignedTeams ps)
      hnd hband hbsub
  refine ⟨?_, hpermsnd, ?_, ?_⟩
  · have hfst := foldl_appendRemaining_fst
      (groups.flatMap fun g => (calculate_group_standings g.1 g.2).map Row.team)
      (base2.length + 1, base2) rfl hbfst
    rw [hfst]
    have hlen := hpermsnd.length_eq
    rw [List.length_map] at hlen
    rw [hlen]
  · obtain ⟨rest, hrest⟩ := hpre
    obtain ⟨suf, hsuf⟩ := foldl_appendRemaining_prefix
      (groups.flatMap fun g => (calculate_group_standings g.1 g.2).map Row.team)
      (base2.length + 1, base2)
    rw [hsuf, hrest]
    simp
  · obtain ⟨rest, hrest⟩ := hpre
    obtain ⟨suf, hsuf⟩ := foldl_appendRemaining_prefix
      (groups.flatMap fun g => (calculate_group_standings g.1 g.2).map Row.team)
      (base2.length + 1, base2)
    rw [hsuf, hrest]
    simp

/-- C8: on a complete bracket with a Finals row whose derived teams
(the Final's winner and runner-up, Third-Place winner and runner-up,
Quarterfinal losers) are distinct grouped teams, with a Third-Place row
whenever Quarterfinal rows exist (as every bracket built by
`generate_playoffs` has), and with duplicate-free grouped teams,
`generate_final_standings` emits exactly one position per grouped team, the
positions forming the contiguous sequence 1, 2, 3, … with no duplicates or
gaps, position 1 being the Final's winner and position 2 the Final's
runner-up (its loser when no draw occurred). -/
theorem generate_final_standings_complete (ps : List PMatch)
    (groups : List (List String × List GMatch)) (f : PMatch)
    (hc : check_playoffs_complete ps = true)
    (hf : ps.find? (fun m => m.fase == "Finals") = some f)
    (htp : (ps.filter fun m => m.fase == "Quarterfinals") ≠ [] →
      (ps.find? (fun m => m.fase == "Third Place")).isSome = true)
    (hnd : (groups.flatMap fun g => g.1).Nodup)
    (hband : (assignedTeams ps).Nodup)
    (hbsub : ∀ t ∈ assignedTeams ps, t ∈ groups.flatMap fun g => g.1) :
    ∃ l, generate_final_standings ps groups = some l ∧
      l.map Prod.fst = List.range' 1 (groups.flatMap fun g => g.1).length ∧
      (l.map Prod.snd).Perm (groups.flatMap fun g => g.1) ∧
      l[0]? = some (1, f.winner) ∧ l[1]? = some (2, runnerUpOf f) := by
  unfold generate_final_standings
  rw [hc]
  simp only [Bool.true_eq_false, if_false, hf]
  cases htpc : ps.find? (fun m => m.fase == "Third Place") with
  | none =>
    have hqfs : (ps.filter fun m => m.fase == "Quarterfinals") = [] := by
      by_contra hne
      have := htp hne
      rw [htpc] at this
      simp at this
    rw [hqfs]
    simp only [List.map_nil, List.enum_nil, List.append_nil]
    have h := gfs_assemble ps groups f [(1, f.winner), (2, runnerUpOf f)]
      rfl
      (by
        unfold assignedTeams
        rw [hf, htpc, hqfs]
        simp)
      ⟨[], rfl⟩ hnd hband hbsub
    exact ⟨_, rfl, h.1, h.2.1, h.2.2.1, h.2.2.2⟩
  | some tp =>
    have h := gfs_assemble ps groups f
      (([(1, f.winner), (2, runnerUpOf f)] ++ [(3, tp.winner), (4, runnerUpOf tp)]) ++
        ((ps.filter fun m => m.fase == "Quarterfinals").map runnerUpOf).enum.map
          (fun p => (5 + p.1, p.2)))
      (base2_fst_tp f.winner (runnerUpOf f) tp.winner (runnerUpOf tp)
        ((ps.filter fun m => m.fase == "Quarterfinals").map runnerUpOf))
      (by
        unfold assignedTeams
        rw [hf, htpc]
        rw [List.map_append, enumPart_snd]
        simp)
      ⟨[(3, tp.winner), (4, runnerUpOf tp)] ++
        ((ps.filter fun m => m.fase == "Quarterfinals").map runnerUpOf).enum.map
          (fun p => (5 + p.1, p.2)), by simp⟩
      hnd hband hbsub
    exact ⟨_, rfl, h.1, h.2.1, h.2.2.1, h.2.2.2⟩

/-- Witness for C8 on the concrete one-match bracket `psC8` over the two-team
group `groupsC8`: positions are exactly 1 and 2, the Final's winner first and
its loser second. -/
theorem generate_final_standings_complete_witness :
    ((generate_final_standings psC8 groupsC8).map fun l => l.map Prod.fst) =
      some [1, 2] ∧
    ((generate_final_standings psC8 groupsC8).map fun l => (l[0]?, l[1]?)) =
      some (some (1, "A"), some (2, "B")) := by
  obtain ⟨l, hl, hfst, hperm, h0, h1⟩ := generate_final_standings_complete psC8 groupsC8
    ⟨"Finals", "A", "B", some 3, some 1, "A"⟩ (by decide) (by decide) (by decide)
    (by decide) (by decide) (by decide)
  rw [hl]
  refine ⟨?_, ?_⟩
  · simp only [Option.map_some']
    rw [hfst]
    decide
  · simp only [Option.map_some']
    rw [h0, h1]
    decide
